import Mathlib

/-!
Verification of the AbyssVerbVN signal-processing core
(`Source/PluginProcessor.h`, `Source/PluginProcessor.cpp`).

The C++ modules are shallowly embedded over `ℝ`: every stateful module
becomes a record of its member variables and a pure step function that
returns the updated record together with the sample it produces.  Float
arithmetic is modelled by exact real arithmetic; `static_cast` of a
non-negative float to an integer type is modelled by `Int.floor`
followed by `Int.toNat`; the implementation-defined `std::mt19937` /
`std::uniform_*_distribution` pipeline is modelled by abstract draw
functions indexed by the seed and by a running draw counter, constrained
only by the ranges the C++ standard guarantees.
-/

namespace AbyssVerb

noncomputable section

/-- Embedding of `juce::jlimit (lo, hi, v)`:
`v < lo ? lo : (hi < v ? hi : v)`. -/
def jlimit (lo hi v : ℝ) : ℝ :=
  if v < lo then lo else if hi < v then hi else v

theorem jlimit_mem (lo hi v : ℝ) (h : lo ≤ hi) :
    lo ≤ jlimit lo hi v ∧ jlimit lo hi v ≤ hi := by
  unfold jlimit
  split_ifs with h1 h2 <;> constructor <;> linarith

/-- Embedding of `std::round` (round half away from zero). -/
def roundHalf (x : ℝ) : ℤ :=
  if x < 0 then -⌊-x + 1/2⌋ else ⌊x + 1/2⌋

theorem roundHalf_zero : roundHalf 0 = 0 := by
  unfold roundHalf
  rw [if_neg (by norm_num)]
  have : ⌊(0:ℝ) + 1/2⌋ = 0 := by
    apply Int.floor_eq_zero_iff.mpr
    constructor <;> norm_num
  simpa using this

/-- Fuel-driven embedding of the popcount loop in
`AbyssFDNReverb::process` (`while (bits) { popcount += bits & 1; bits >>= 1; }`).
A fuel of `bits` itself always suffices since the loop runs at most
`log2 bits + 1` times. -/
def popcountFuel : ℕ → ℕ → ℕ
  | 0, _ => 0
  | _ + 1, 0 => 0
  | fuel + 1, bits => bits % 2 + popcountFuel fuel (bits / 2)

/-- Population count as computed by the C++ loop. -/
def popcount (bits : ℕ) : ℕ := popcountFuel bits bits

/-- Sign entry of the FDN feedback matrix:
`(-1)^popcount(i & j)` from `AbyssFDNReverb::process`. -/
def hadSignZ (i j : ℕ) : ℤ :=
  if popcount (Nat.land i j) % 2 = 0 then 1 else -1

--------------------------------------------------------------------------------
-- SmoothedParameters (PluginProcessor.h lines 442-479)
--------------------------------------------------------------------------------

/-- One smoothing update from `SmoothedParameters::smooth`:
`*targets[i] += (rawTargets[i] - *targets[i]) * (1.0f - smoothingCoeff)`. -/
def smoothVal (coeff cur target : ℝ) : ℝ :=
  cur + (target - cur) * (1 - coeff)

/-- Value of one smoothed parameter after `n` per-sample updates toward a
constant target, starting from `v`. -/
def smoothRun (coeff target : ℝ) : ℕ → ℝ → ℝ
  | 0, v => v
  | n + 1, v => smoothRun coeff target n (smoothVal coeff v target)

--------------------------------------------------------------------------------
-- DC blocker (PluginProcessor.cpp lines 238-248)
--------------------------------------------------------------------------------

/-- One step of the DC-blocking filter from `processBlock`:
`dcOut = wet - x1 + 0.995 * y1; x1 = wet; y1 = dcOut`.
Returns the new `(x1, y1)` pair; the output sample is the second
component. -/
def dcStep (x1 y1 wet : ℝ) : ℝ × ℝ :=
  (wet, wet - x1 + 0.995 * y1)

/-- DC-blocker state after `n` steps on a constant input `c`, starting
from the reset state `(0, 0)` set in `prepareToPlay`. -/
def dcIter (c : ℝ) : ℕ → ℝ × ℝ
  | 0 => (0, 0)
  | n + 1 => dcStep (dcIter c n).1 (dcIter c n).2 c

/-- Output of the DC blocker at (0-based) sample `n` on constant input `c`. -/
def dcOutSeq (c : ℝ) (n : ℕ) : ℝ := (dcIter c (n + 1)).2

--------------------------------------------------------------------------------
-- ViolinInputConditioner (PluginProcessor.h lines 11-94)
--------------------------------------------------------------------------------

/-- State of `ViolinInputConditioner`: the filter coefficients fixed at
prepare time and the mutable filter histories. -/
structure CondState where
  hpCoeff : ℝ
  bodyB0 : ℝ
  bodyB1 : ℝ
  bodyB2 : ℝ
  bodyA1 : ℝ
  bodyA2 : ℝ
  hpState : ℝ
  bodyX1 : ℝ
  bodyX2 : ℝ
  bodyY1 : ℝ
  bodyY2 : ℝ

/-- Per-sample parameters of `ViolinInputConditioner`. -/
structure CondParams where
  piezoCorrect : ℝ
  bodyResonance : ℝ
  brightness : ℝ

/-- Raw body-resonance biquad output (`bodyOut` before clamping). -/
def condBodyRaw (s : CondState) (corrected : ℝ) : ℝ :=
  s.bodyB0 * corrected + s.bodyB1 * s.bodyX1 + s.bodyB2 * s.bodyX2
    - s.bodyA1 * s.bodyY1 - s.bodyA2 * s.bodyY2

/-- The biquad output clamped to `[-10, 10]`
(`bodyOut = juce::jlimit (-10.0f, 10.0f, bodyOut)`). -/
def condBodyClamped (s : CondState) (corrected : ℝ) : ℝ :=
  jlimit (-10) 10 (condBodyRaw s corrected)

/-- Embedding of `ViolinInputConditioner::process`.  Note that the
biquad history `bodyY1` stores the raw (unclamped) biquad output, as in
the source, while the clamped value is blended into the signal. -/
def condProcess (p : CondParams) (s : CondState) (input : ℝ) : CondState × ℝ :=
  let hp := input * (1 - s.hpCoeff) + s.hpState * s.hpCoeff
  let corrected := input - hp * p.piezoCorrect
  let bodyOut := condBodyClamped s corrected
  let withBody := corrected * (1 - p.bodyResonance * 0.5) + bodyOut * (p.bodyResonance * 0.5)
  let brightOut := withBody * (1 + p.brightness * 0.3)
  (⟨s.hpCoeff, s.bodyB0, s.bodyB1, s.bodyB2, s.bodyA1, s.bodyA2,
    hp, corrected, s.bodyX1, condBodyRaw s corrected, s.bodyY1⟩,
   jlimit (-1) 1 brightOut)

--------------------------------------------------------------------------------
-- EnvelopeFollower (PluginProcessor.h lines 100-147)
--------------------------------------------------------------------------------

/-- One envelope update from `EnvelopeFollower::process`: attack branch
when `|input| > envelope`, release branch otherwise. -/
def envStep (attackC releaseC env input : ℝ) : ℝ :=
  if |input| > env then |input| + (env - |input|) * attackC
  else |input| + (env - |input|) * releaseC

/-- Envelope value after processing a list of inputs from the reset
state `envelope = 0`. -/
def envRun (attackC releaseC : ℝ) (xs : List ℝ) : ℝ :=
  xs.foldl (fun e x => envStep attackC releaseC e x) 0

/-- Maximum absolute value of a list of samples (0 for the empty list). -/
def maxAbs (xs : List ℝ) : ℝ :=
  xs.foldr (fun x m => max |x| m) 0

/-- State of `EnvelopeFollower` in the full pipeline. -/
structure EnvState where
  attackCoeff : ℝ
  releaseCoeff : ℝ
  envelope : ℝ

/-- Embedding of `EnvelopeFollower::process` including the sensitivity
scaling of the returned value. -/
def envProcess (sensitivity : ℝ) (s : EnvState) (input : ℝ) : EnvState × ℝ :=
  let e := envStep s.attackCoeff s.releaseCoeff s.envelope input
  (⟨s.attackCoeff, s.releaseCoeff, e⟩, e * (0.5 + sensitivity * 0.5))

--------------------------------------------------------------------------------
-- Delay-line read indexing (shared by VanishingDelay and AbyssFDNReverb)
--------------------------------------------------------------------------------

/-- First linear-interpolation index:
`static_cast<size_t> (readPosF) % len` (the cast of a non-negative float
truncates, i.e. floors). -/
def readIdx0 (len : ℕ) (r : ℝ) : ℕ := (⌊r⌋).toNat % len

/-- Second linear-interpolation index: `(readIdx0 + 1) % len`. -/
def readIdx1 (len : ℕ) (r : ℝ) : ℕ := (readIdx0 len r + 1) % len

/-- Clamp of the effective delay length in `VanishingDelay::process`:
`juce::jlimit (1.0f, static_cast<float> (bufSize - 1), delaySamples)`. -/
def vdDelayClamped (bufSize : ℕ) (d : ℝ) : ℝ :=
  jlimit 1 ((bufSize - 1 : ℕ) : ℝ) d

/-- Read position in `VanishingDelay::process`:
`readPosF = writePos - delaySamples; if (readPosF < 0) readPosF += bufSize`. -/
def vdReadPos (bufSize wp : ℕ) (d : ℝ) : ℝ :=
  if (wp : ℝ) - d < 0 then (wp : ℝ) - d + (bufSize : ℝ) else (wp : ℝ) - d

/-- Fuel-driven embedding of the wrap loop in `AbyssFDNReverb::process`:
`while (readPosF < 0.0f) readPosF += len`. -/
def addWrap (len : ℝ) : ℕ → ℝ → ℝ
  | 0, r => r
  | fuel + 1, r => if r < 0 then addWrap len fuel (r + len) else r

/-- Read position of an FDN line: the wrap loop applied with enough fuel
(`⌈-r/len⌉ + 1` iterations always reach a non-negative value when
`len > 0`, which is exactly when the C++ loop terminates). -/
def fdnReadPos (len : ℕ) (r : ℝ) : ℝ :=
  addWrap (len : ℝ) ((⌈-r / (len : ℝ)⌉).toNat + 1) r

theorem addWrap_nonneg (len : ℝ) (hlen : 0 < len) :
    ∀ (fuel : ℕ) (r : ℝ), (⌈-r / len⌉).toNat < fuel → 0 ≤ addWrap len fuel r := by
  intro fuel
  induction fuel with
  | zero => intro r h; exact absurd h (Nat.not_lt_zero _)
  | succ fuel ih =>
      intro r h
      rw [addWrap]
      split_ifs with hr
      · apply ih
        have hne : len ≠ 0 := ne_of_gt hlen
        have h1 : -(r + len) / len = -r / len - 1 := by field_simp; ring
        have h2 : ⌈-(r + len) / len⌉ = ⌈-r / len⌉ - 1 := by
          rw [h1, Int.ceil_sub_one]
        have h3 : 0 < -r / len := div_pos (by linarith) hlen
        have h4 : 1 ≤ ⌈-r / len⌉ := Int.ceil_pos.mpr h3
        rw [h2]
        omega
      · linarith [not_lt.mp hr]

--------------------------------------------------------------------------------
-- VanishingDelay (PluginProcessor.h lines 296-437)
--------------------------------------------------------------------------------

/-- Per-tap state of `VanishingDelay` (the unused `tapDrift` member is
omitted: it is initialised and never read). -/
structure TapState where
  gainTarget : ℝ
  gainCurrent : ℝ
  timer : ℤ
  driftPhase : ℝ
  lpState : ℝ

/-- Per-sample parameters of `VanishingDelay`. -/
structure VDParams where
  delayTimeMs : ℝ
  feedback : ℝ
  vanishRate : ℝ
  degradeAmount : ℝ
  driftAmount : ℝ

/-- The re-roll block of `VanishingDelay::process`
(`tapTimer[i]--; if (tapTimer[i] <= 0) { ... }`).  The C++
`std::uniform_real_distribution` / `std::uniform_int_distribution`
draws are implementation-defined deterministic functions of the
`std::mt19937` engine, modelled by the abstract draw functions `gen`
(real draw in `[0, 1)`) and `igen` (integer draw in `[lo, hi]`), both
indexed by the engine's seed and by a running draw counter.  Returns
the new target gain, the new timer and the advanced draw counter. -/
def tapReroll (gen : ℕ → ℕ → ℝ) (igen : ℕ → ℕ → ℤ → ℤ → ℤ) (seed : ℕ)
    (sr vanishRate : ℝ) (c : ℕ) (timer : ℤ) (gainTarget : ℝ) : ℝ × ℤ × ℕ :=
  if timer - 1 ≤ 0 then
    if gen seed c < vanishRate then
      (0, igen seed (c + 1) ⌊sr * 0.05⌋ ⌊sr * 0.4⌋, c + 2)
    else
      (gen seed (c + 1) * 0.7 + 0.3, igen seed (c + 2) ⌊sr * 0.05⌋ ⌊sr * 0.4⌋, c + 3)
  else (gainTarget, timer - 1, c)

/-- One tap of `VanishingDelay::process`: re-roll, gain smoothing, drift,
clamped delay-length computation, interpolated read, degrade low-pass
and bit reduction.  Returns the new tap state, the tap's contribution
`tapOut * tapGainCurrent` and the advanced draw counter. -/
def tapStep (gen : ℕ → ℕ → ℝ) (igen : ℕ → ℕ → ℤ → ℤ → ℤ) (seed : ℕ)
    (sr : ℝ) (buffer : List ℝ) (wp : ℕ) (p : VDParams) (spacing : ℝ)
    (c : ℕ) (t : TapState) : TapState × ℝ × ℕ :=
  let r := tapReroll gen igen seed sr p.vanishRate c t.timer t.gainTarget
  let gain := t.gainCurrent + (r.1 - t.gainCurrent) * 0.001
  let phase0 := t.driftPhase + p.driftAmount * 0.1 / sr
  let phase := if phase0 ≥ 1 then phase0 - 1 else phase0
  let drift := Real.sin (2 * Real.pi * phase) * p.driftAmount * (sr / 1000)
  let bufSize := buffer.length
  let delaySamples := vdDelayClamped bufSize (p.delayTimeMs * spacing * (sr / 1000) + drift)
  let rp := vdReadPos bufSize wp delaySamples
  let frac := rp - ⌊rp⌋
  let rawTap := buffer.getD (readIdx0 bufSize rp) 0 * (1 - frac)
      + buffer.getD (readIdx1 bufSize rp) 0 * frac
  let lpCoeff := 1 - p.degradeAmount * 0.9
  let lp := rawTap * (1 - lpCoeff) + t.lpState * lpCoeff
  let outTap := if p.degradeAmount > 0.01 then
      let levels := (2 : ℝ) ^ (16 - p.degradeAmount * 12)
      (roundHalf (lp * levels) : ℝ) / levels
    else lp
  (⟨r.1, gain, r.2.1, phase, lp⟩, outTap * gain, r.2.2)

/-- State of `VanishingDelay`. -/
structure VDState where
  buffer : List ℝ
  writePos : ℕ
  sr : ℝ
  seed : ℕ
  rngCount : ℕ
  tap0 : TapState
  tap1 : TapState
  tap2 : TapState

/-- Embedding of `VanishingDelay::process`: the three taps (golden-ratio
spacings 1, 0.618, 0.382) run in order, threading the draw counter; the
averaged output is written back with feedback and the write cursor
advances. -/
def vdProcess (gen : ℕ → ℕ → ℝ) (igen : ℕ → ℕ → ℤ → ℤ → ℤ)
    (p : VDParams) (s : VDState) (input : ℝ) : VDState × ℝ :=
  let r0 := tapStep gen igen s.seed s.sr s.buffer s.writePos p 1 s.rngCount s.tap0
  let r1 := tapStep gen igen s.seed s.sr s.buffer s.writePos p 0.618 r0.2.2 s.tap1
  let r2 := tapStep gen igen s.seed s.sr s.buffer s.writePos p 0.382 r1.2.2 s.tap2
  let out := (r0.2.1 + r1.2.1 + r2.2.1) / 3
  (⟨s.buffer.set s.writePos (input + out * p.feedback),
    (s.writePos + 1) % s.buffer.length,
    s.sr, s.seed, r2.2.2, r0.1, r1.1, r2.1⟩, out)

/-- Embedding of `VanishingDelay::prepare`: a `⌊2 * sr⌋`-sample zero
buffer, write cursor 0, the engine seeded with the constant 42, the
draw counter reset, and each tap at gain 1, timer 0 and drift phase
`i * 0.33`. -/
def vdPrepare (sr : ℝ) : VDState :=
  ⟨List.replicate (⌊sr * 2⌋).toNat 0, 0, sr, 42, 0,
   ⟨1, 1, 0, 0, 0⟩, ⟨1, 1, 0, 0.33, 0⟩, ⟨1, 1, 0, 0.66, 0⟩⟩

/-- Per-sample observable record of a `VanishingDelay` run: the output
sample, the three tap-gain targets and the three timers. -/
structure VDTrace where
  out : ℝ
  targets : ℝ × ℝ × ℝ
  timers : ℤ × ℤ × ℤ

/-- A run of `VanishingDelay::process` over a list of per-sample
(parameters, input) pairs, collecting final state and trace. -/
def vdRun (gen : ℕ → ℕ → ℝ) (igen : ℕ → ℕ → ℤ → ℤ → ℤ) :
    List (VDParams × ℝ) → VDState → VDState × List VDTrace
  | [], s => (s, [])
  | (p, x) :: rest, s =>
      let r := vdProcess gen igen p s x
      let rest' := vdRun gen igen rest r.1
      (rest'.1,
       ⟨r.2, (r.1.tap0.gainTarget, r.1.tap1.gainTarget, r.1.tap2.gainTarget),
        (r.1.tap0.timer, r.1.tap1.timer, r.1.tap2.timer)⟩ :: rest'.2)

/-- The all-zero real draw function, a valid instance of a `[0, 1)` draw. -/
def genZero : ℕ → ℕ → ℝ := fun _ _ => 0

/-- The lower-bound integer draw function, a valid `[lo, hi]` draw. -/
def igenZero : ℕ → ℕ → ℤ → ℤ → ℤ := fun _ _ lo _ => lo

--------------------------------------------------------------------------------
-- AbyssFDNReverb (PluginProcessor.h lines 153-290)
--------------------------------------------------------------------------------

/-- The normalisation of the FDN feedback matrix:
`scale = 1.0f / std::sqrt (NUM_LINES)` with `NUM_LINES = 8`. -/
def fdnScale : ℝ := 1 / Real.sqrt 8

/-- The mixed feedback vector of `AbyssFDNReverb::process`:
`feedback[i] = (Σ_j sign(i,j) * outputs[j]) * scale` with
`sign(i,j) = (-1)^popcount(i & j)`. -/
def fdnFeedbackVec (outputs : Fin 8 → ℝ) (i : Fin 8) : ℝ :=
  (∑ j : Fin 8, (hadSignZ i.val j.val : ℝ) * outputs j) * fdnScale

/-- Exponent of the per-line decay gain in `AbyssFDNReverb::process`:
`-3 * len / (decay * sr)`, with no clamping of `decay` anywhere. -/
def fdnDecayExponent (len : ℕ) (decay sr : ℝ) : ℝ :=
  -3 * (len : ℝ) / (decay * sr)

/-- Per-sample parameters of `AbyssFDNReverb`. -/
structure FDNParams where
  decay : ℝ
  dampHigh : ℝ
  dampLow : ℝ
  modDepth : ℝ
  modRate : ℝ
  detune : ℝ

/-- State of `AbyssFDNReverb`. -/
structure FDNState where
  lines : Fin 8 → List ℝ
  writePos : Fin 8 → ℕ
  dampState : Fin 8 → ℝ
  damp2State : Fin 8 → ℝ
  lfoPhase : Fin 8 → ℝ
  sr : ℝ

/-- LFO phase advance of one FDN line:
`lfoPhase[i] += modRate * (1 + detune * i * 0.1) / sr`, wrapped at 1. -/
def fdnLfoNext (s : FDNState) (p : FDNParams) (i : Fin 8) : ℝ :=
  let ph := s.lfoPhase i + p.modRate * (1 + p.detune * (i.val : ℝ) * 0.1) / s.sr
  if ph ≥ 1 then ph - 1 else ph

/-- Pre-feedback interpolated read of one FDN line at its modulated,
wrapped read position. -/
def fdnLineOut (s : FDNState) (p : FDNParams) (i : Fin 8) : ℝ :=
  let len := (s.lines i).length
  let modSamples := Real.sin (2 * Real.pi * fdnLfoNext s p i) * p.modDepth * (s.sr / 1000)
  let rp := fdnReadPos len ((s.writePos i : ℝ) - (len : ℝ) + modSamples)
  let frac := rp - ⌊rp⌋
  (s.lines i).getD (readIdx0 len rp) 0 * (1 - frac)
    + (s.lines i).getD (readIdx1 len rp) 0 * frac

/-- Embedding of `AbyssFDNReverb::process`: per line, LFO-modulated
interpolated read; Hadamard-sign mixing scaled by `1/sqrt 8`; RT60 decay
gain `10^(-3 len/(decay sr))`; two cascaded one-pole dampers; write-back
and cursor advance.  The module output is the sum of the eight
pre-feedback reads scaled by `1/sqrt 8`. -/
def fdnProcess (p : FDNParams) (s : FDNState) (input : ℝ) : FDNState × ℝ :=
  let len : Fin 8 → ℕ := fun i => (s.lines i).length
  let lfo' : Fin 8 → ℝ := fun i => fdnLfoNext s p i
  let outputs : Fin 8 → ℝ := fun i => fdnLineOut s p i
  let feedback := fdnFeedbackVec outputs
  let dampH := 1 - p.dampHigh * 0.95
  let dampL := 1 - p.dampLow * 0.5
  let g : Fin 8 → ℝ := fun i => (10 : ℝ) ^ fdnDecayExponent (len i) p.decay s.sr
  let damp1' : Fin 8 → ℝ := fun i =>
    (feedback i * g i + input / 8) * dampH + s.dampState i * (1 - dampH)
  let damp2' : Fin 8 → ℝ := fun i =>
    damp1' i * dampL + s.damp2State i * (1 - dampL)
  (⟨fun i => (s.lines i).set (s.writePos i) (damp2' i),
    fun i => (s.writePos i + 1) % len i,
    damp1', damp2', lfo', s.sr⟩,
   (∑ i : Fin 8, outputs i) * fdnScale)

--------------------------------------------------------------------------------
-- Theorems: FDN feedback matrix (C4)
--------------------------------------------------------------------------------

theorem hadOrtho : ∀ j k : Fin 8,
    (∑ i : Fin 8, hadSignZ i.val j.val * hadSignZ i.val k.val)
      = if j = k then 8 else 0 := by decide

/-- C4: the FDN feedback matrix entry `(i,j)` has sign `+1` exactly when
`popcount (i & j)` is even (else `-1`), scaled by `1/sqrt 8`; this
matrix is orthogonal, so the sum of squares of the eight mixed feedback
values equals the sum of squares of the eight line outputs (exactly, in
the real-arithmetic model). -/
theorem C4_feedback_matrix_energy (x : Fin 8 → ℝ) :
    ∑ i : Fin 8, (fdnFeedbackVec x i) ^ 2 = ∑ j : Fin 8, (x j) ^ 2 := by
  have hscale : fdnScale ^ 2 = 8⁻¹ := by
    unfold fdnScale
    rw [div_pow, one_pow, Real.sq_sqrt (by norm_num : (0:ℝ) ≤ 8), one_div]
  have hcoef : ∀ j k : Fin 8,
      (∑ i : Fin 8, (hadSignZ i.val j.val : ℝ) * (hadSignZ i.val k.val : ℝ))
        = if j = k then (8 : ℝ) else 0 := by
    intro j k
    calc (∑ i : Fin 8, (hadSignZ i.val j.val : ℝ) * (hadSignZ i.val k.val : ℝ))
        = ((∑ i : Fin 8, hadSignZ i.val j.val * hadSignZ i.val k.val : ℤ) : ℝ) := by
          push_cast; rfl
      _ = (((if j = k then 8 else 0) : ℤ) : ℝ) := by rw [hadOrtho j k]
      _ = if j = k then (8 : ℝ) else 0 := by split_ifs <;> norm_num
  have expand : ∀ i : Fin 8,
      (∑ j : Fin 8, (hadSignZ i.val j.val : ℝ) * x j) ^ 2
        = ∑ j : Fin 8, ∑ k : Fin 8,
            ((hadSignZ i.val j.val : ℝ) * (hadSignZ i.val k.val : ℝ)) * (x j * x k) := by
    intro i
    rw [sq, Finset.sum_mul_sum]
    exact Finset.sum_congr rfl fun j _ => Finset.sum_congr rfl fun k _ => by ring
  have key : ∑ i : Fin 8, (∑ j : Fin 8, (hadSignZ i.val j.val : ℝ) * x j) ^ 2
      = 8 * ∑ j : Fin 8, (x j) ^ 2 := by
    calc ∑ i : Fin 8, (∑ j : Fin 8, (hadSignZ i.val j.val : ℝ) * x j) ^ 2
        = ∑ i : Fin 8, ∑ j : Fin 8, ∑ k : Fin 8,
            ((hadSignZ i.val j.val : ℝ) * (hadSignZ i.val k.val : ℝ)) * (x j * x k) :=
          Finset.sum_congr rfl fun i _ => expand i
      _ = ∑ j : Fin 8, ∑ i : Fin 8, ∑ k : Fin 8,
            ((hadSignZ i.val j.val : ℝ) * (hadSignZ i.val k.val : ℝ)) * (x j * x k) :=
          Finset.sum_comm
      _ = ∑ j : Fin 8, ∑ k : Fin 8, ∑ i : Fin 8,
            ((hadSignZ i.val j.val : ℝ) * (hadSignZ i.val k.val : ℝ)) * (x j * x k) :=
          Finset.sum_congr rfl fun j _ => Finset.sum_comm
      _ = ∑ j : Fin 8, ∑ k : Fin 8,
            (∑ i : Fin 8, (hadSignZ i.val j.val : ℝ) * (hadSignZ i.val k.val : ℝ))
              * (x j * x k) := by
          exact Finset.sum_congr rfl fun j _ => Finset.sum_congr rfl fun k _ =>
            (Finset.sum_mul _ _ _).symm
      _ = ∑ j : Fin 8, ∑ k : Fin 8, (if j = k then (8 : ℝ) else 0) * (x j * x k) := by
          exact Finset.sum_congr rfl fun j _ => Finset.sum_congr rfl fun k _ => by
            rw [hcoef j k]
      _ = ∑ j : Fin 8, 8 * (x j * x j) := by
          refine Finset.sum_congr rfl fun j _ => ?_
          simp only [ite_mul, zero_mul]
          rw [Finset.sum_ite_eq]
          simp
      _ = 8 * ∑ j : Fin 8, (x j) ^ 2 := by
          rw [Finset.mul_sum]
          exact Finset.sum_congr rfl fun j _ => by ring
  calc ∑ i : Fin 8, (fdnFeedbackVec x i) ^ 2
      = ∑ i : Fin 8, (∑ j : Fin 8, (hadSignZ i.val j.val : ℝ) * x j) ^ 2 * fdnScale ^ 2 := by
        exact Finset.sum_congr rfl fun i _ => by rw [fdnFeedbackVec, mul_pow]
    _ = (∑ i : Fin 8, (∑ j : Fin 8, (hadSignZ i.val j.val : ℝ) * x j) ^ 2) * fdnScale ^ 2 :=
        (Finset.sum_mul _ _ _).symm
    _ = (8 * ∑ j : Fin 8, (x j) ^ 2) * 8⁻¹ := by rw [key, hscale]
    _ = ∑ j : Fin 8, (x j) ^ 2 := by ring

--------------------------------------------------------------------------------
-- Theorems: decay-gain finiteness under degenerate decay (C1)
--------------------------------------------------------------------------------

/-- Largest finite IEEE-754 single-precision value,
`(2 - 2^-23) * 2^127 = (2^24 - 1) * 2^104`. -/
def floatMax : ℝ := (2 ^ 24 - 1) * 2 ^ 104

/-- C1 (refuting the claimed clamping): the decay-gain formula of
`AbyssFDNReverb::process` is applied with no clamp whatsoever; at line
length 1557, sample rate 44100 and the degenerate decay `-0.001` the
exponent `-3 * len / (decay * sr)` is about `105.9 ≥ 39`, so the real
value of `10 ^ exponent` exceeds the largest finite single-precision
float — the float computation `std::pow (10.0f, …)` overflows to
`+inf`, a non-finite gain fed into the feedback loop, contradicting the
claim that the gain is never non-finite for any decay value. -/
theorem C1_decay_gain_overflows :
    39 ≤ fdnDecayExponent 1557 (-(1/1000)) 44100 ∧
    floatMax < (10 : ℝ) ^ fdnDecayExponent 1557 (-(1/1000)) 44100 := by
  have hexp : fdnDecayExponent 1557 (-(1/1000)) 44100 = 46710 / 441 := by
    unfold fdnDecayExponent
    norm_num
  constructor
  · rw [hexp]; norm_num
  · have h39 : (10 : ℝ) ^ (39 : ℝ) ≤ (10 : ℝ) ^ fdnDecayExponent 1557 (-(1/1000)) 44100 := by
      rw [Real.rpow_le_rpow_left_iff (by norm_num : (1:ℝ) < 10), hexp]
      norm_num
    have hval : (10 : ℝ) ^ (39 : ℝ) = (10 : ℝ) ^ (39 : ℕ) := by
      rw [← Real.rpow_natCast 10 39]
      norm_num
    calc floatMax < (10 : ℝ) ^ (39 : ℕ) := by unfold floatMax; norm_num
      _ = (10 : ℝ) ^ (39 : ℝ) := hval.symm
      _ ≤ _ := h39

--------------------------------------------------------------------------------
-- Theorems: delay-read bounds (C5)
--------------------------------------------------------------------------------

/-- C5: the `VanishingDelay` effective delay length is clamped into
`[1, bufSize-1]` before interpolation; its wrapped read position is
non-negative (so the `size_t` cast is sound) and both interpolation
indices lie in `[0, bufSize)`; in the FDN the while-wrapped read
position is non-negative and both interpolation indices lie in
`[0, len)`; the write-cursor update `(wp+1) % len` preserves the
cursor invariant, so every state reachable from prepare (write cursor
0 with a non-empty buffer) keeps all reads in bounds. -/
theorem C5_delay_reads_in_bounds (bufSize wp : ℕ) (dRaw : ℝ) (len : ℕ) (rp0 : ℝ)
    (hbuf : 2 ≤ bufSize) (_hwp : wp < bufSize) (hlen : 0 < len) :
    (1 ≤ vdDelayClamped bufSize dRaw ∧
     vdDelayClamped bufSize dRaw ≤ ((bufSize - 1 : ℕ) : ℝ) ∧
     0 ≤ vdReadPos bufSize wp (vdDelayClamped bufSize dRaw) ∧
     readIdx0 bufSize (vdReadPos bufSize wp (vdDelayClamped bufSize dRaw)) < bufSize ∧
     readIdx1 bufSize (vdReadPos bufSize wp (vdDelayClamped bufSize dRaw)) < bufSize) ∧
    (0 ≤ fdnReadPos len rp0 ∧
     readIdx0 len (fdnReadPos len rp0) < len ∧
     readIdx1 len (fdnReadPos len rp0) < len) ∧
    (wp + 1) % bufSize < bufSize := by
  have hcast : (1 : ℝ) ≤ ((bufSize - 1 : ℕ) : ℝ) := by
    have : (1 : ℕ) ≤ bufSize - 1 := by omega
    exact_mod_cast this
  have hclamp := jlimit_mem 1 ((bufSize - 1 : ℕ) : ℝ) dRaw hcast
  refine ⟨⟨hclamp.1, hclamp.2, ?_, Nat.mod_lt _ (by omega), Nat.mod_lt _ (by omega)⟩,
    ⟨?_, Nat.mod_lt _ hlen, Nat.mod_lt _ hlen⟩, Nat.mod_lt _ (by omega)⟩
  · unfold vdReadPos
    have hsub : ((bufSize - 1 : ℕ) : ℝ) = (bufSize : ℝ) - 1 := by
      have : (1 : ℕ) ≤ bufSize := by omega
      push_cast [Nat.cast_sub this]
      ring
    have hd : vdDelayClamped bufSize dRaw ≤ (bufSize : ℝ) - 1 := by
      rw [← hsub]; exact hclamp.2
    split_ifs with hneg
    · have hwpr : (0 : ℝ) ≤ (wp : ℝ) := Nat.cast_nonneg wp
      linarith
    · linarith [not_lt.mp hneg]
  · exact addWrap_nonneg (len : ℝ) (by exact_mod_cast hlen) _ rp0 (Nat.lt_succ_self _)

/-- Witness for C5 at `bufSize = 4`, `wp = 0`, raw delay 100, `len = 3`,
unwrapped FDN read position `-7`. -/
theorem C5_delay_reads_in_bounds_witness :
    (1 ≤ vdDelayClamped 4 100 ∧
     vdDelayClamped 4 100 ≤ ((4 - 1 : ℕ) : ℝ) ∧
     0 ≤ vdReadPos 4 0 (vdDelayClamped 4 100) ∧
     readIdx0 4 (vdReadPos 4 0 (vdDelayClamped 4 100)) < 4 ∧
     readIdx1 4 (vdReadPos 4 0 (vdDelayClamped 4 100)) < 4) ∧
    (0 ≤ fdnReadPos 3 (-7) ∧
     readIdx0 3 (fdnReadPos 3 (-7)) < 3 ∧
     readIdx1 3 (fdnReadPos 3 (-7)) < 3) ∧
    (0 + 1) % 4 < 4 :=
  C5_delay_reads_in_bounds 4 0 100 3 (-7) (by norm_num) (by norm_num) (by norm_num)

--------------------------------------------------------------------------------
-- Theorems: VanishingDelay determinism (C6)
--------------------------------------------------------------------------------

/-- C6: `VanishingDelay` is deterministic.  `prepare` seeds the engine
with the fixed constant 42 and takes no other entropy, so two
independent instances, each taken through `prepare` at the same sample
rate and fed identical per-sample parameter and input sequences through
the same (deterministic, implementation-defined) draw functions,
produce identical tap-gain-target sequences, timer sequences, output
streams and final states. -/
theorem C6_vanishing_delay_deterministic (gen : ℕ → ℕ → ℝ)
    (igen : ℕ → ℕ → ℤ → ℤ → ℤ) (sr : ℝ) (steps : List (VDParams × ℝ))
    (s1 s2 : VDState) (h1 : s1 = vdPrepare sr) (h2 : s2 = vdPrepare sr) :
    s1.seed = 42 ∧ s2.seed = 42 ∧
    vdRun gen igen steps s1 = vdRun gen igen steps s2 := by
  subst h1; subst h2
  exact ⟨rfl, rfl, rfl⟩

/-- Witness for C6: two freshly prepared instances at `sr = 1` on the
empty input sequence. -/
theorem C6_vanishing_delay_deterministic_witness :
    (vdPrepare 1).seed = 42 ∧ (vdPrepare 1).seed = 42 ∧
    vdRun genZero igenZero [] (vdPrepare 1) = vdRun genZero igenZero [] (vdPrepare 1) :=
  C6_vanishing_delay_deterministic genZero igenZero 1 [] _ _ rfl rfl

--------------------------------------------------------------------------------
-- Theorems: tap re-roll semantics (C7)
--------------------------------------------------------------------------------

/-- C7: whenever a tap's decremented countdown timer reaches (or passes)
zero a re-roll occurs: the new target gain is 0 when the uniform roll is
below `vanishRate` and otherwise lies in `[0.3, 1.0]`, and the timer is
reset to a pseudo-random duration between `⌊0.05 * sr⌋` and `⌊0.4 * sr⌋`
samples; on all other samples the target gain is unchanged and the timer
merely decrements. -/
theorem C7_tap_reroll (gen : ℕ → ℕ → ℝ) (igen : ℕ → ℕ → ℤ → ℤ → ℤ)
    (seed c : ℕ) (sr vanishRate : ℝ) (timer : ℤ) (gainTarget : ℝ)
    (hgen : ∀ n, 0 ≤ gen seed n ∧ gen seed n < 1)
    (higen : ∀ n lo hi, lo ≤ hi → lo ≤ igen seed n lo hi ∧ igen seed n lo hi ≤ hi)
    (hsr : 0 ≤ sr) :
    (timer - 1 ≤ 0 →
      ((gen seed c < vanishRate →
          (tapReroll gen igen seed sr vanishRate c timer gainTarget).1 = 0) ∧
       (¬ gen seed c < vanishRate →
          0.3 ≤ (tapReroll gen igen seed sr vanishRate c timer gainTarget).1 ∧
          (tapReroll gen igen seed sr vanishRate c timer gainTarget).1 ≤ 1) ∧
       ⌊sr * 0.05⌋ ≤ (tapReroll gen igen seed sr vanishRate c timer gainTarget).2.1 ∧
       (tapReroll gen igen seed sr vanishRate c timer gainTarget).2.1 ≤ ⌊sr * 0.4⌋)) ∧
    (0 < timer - 1 →
      (tapReroll gen igen seed sr vanishRate c timer gainTarget).1 = gainTarget ∧
      (tapReroll gen igen seed sr vanishRate c timer gainTarget).2.1 = timer - 1) := by
  have hlohi : ⌊sr * 0.05⌋ ≤ ⌊sr * 0.4⌋ :=
    Int.floor_le_floor (by nlinarith)
  constructor
  · intro htrig
    unfold tapReroll
    rw [if_pos htrig]
    constructor
    · intro hvan
      rw [if_pos hvan]
    constructor
    · intro hvan
      rw [if_neg hvan]
      have hg := hgen (c + 1)
      constructor
      · simp only
        nlinarith [hg.1]
      · simp only
        nlinarith [hg.2]
    · split_ifs with hvan
      · exact (higen (c + 1) _ _ hlohi)
      · exact (higen (c + 2) _ _ hlohi)
  · intro hrun
    unfold tapReroll
    rw [if_neg (by omega)]
    exact ⟨rfl, rfl⟩

/-- Witness for C7 at the all-zero draws, seed 42, counter 0, `sr = 20`,
`vanishRate = 0.3`, timer 0, target gain 1: the decremented timer
triggers, the roll 0 is below 0.3, so the target vanishes to 0 and the
timer is reset into `[⌊1⌋, ⌊8⌋]`. -/
theorem C7_tap_reroll_witness :
    ((0 : ℤ) - 1 ≤ 0 →
      ((genZero 42 0 < (0.3 : ℝ) →
          (tapReroll genZero igenZero 42 20 0.3 0 0 1).1 = 0) ∧
       (¬ genZero 42 0 < (0.3 : ℝ) →
          0.3 ≤ (tapReroll genZero igenZero 42 20 0.3 0 0 1).1 ∧
          (tapReroll genZero igenZero 42 20 0.3 0 0 1).1 ≤ 1) ∧
       ⌊(20 : ℝ) * 0.05⌋ ≤ (tapReroll genZero igenZero 42 20 0.3 0 0 1).2.1 ∧
       (tapReroll genZero igenZero 42 20 0.3 0 0 1).2.1 ≤ ⌊(20 : ℝ) * 0.4⌋)) ∧
    ((0 : ℤ) < 0 - 1 →
      (tapReroll genZero igenZero 42 20 0.3 0 0 1).1 = 1 ∧
      (tapReroll genZero igenZero 42 20 0.3 0 0 1).2.1 = 0 - 1) :=
  C7_tap_reroll genZero igenZero 42 0 20 0.3 0 1
    (fun _ => ⟨by simp [genZero], by simp [genZero]⟩)
    (fun _ lo hi h => ⟨by simp [igenZero], by simpa [igenZero] using h⟩)
    (by norm_num)

--------------------------------------------------------------------------------
-- SmoothedParameters and the per-sample pipeline (PluginProcessor.cpp 159-254)
--------------------------------------------------------------------------------

/-- The 18 smoothed parameters of `SmoothedParameters`, plus the
smoothing coefficient set in `reset`. -/
structure SmoothedParams where
  piezoCorrect : ℝ
  bodyResonance : ℝ
  brightness : ℝ
  bowSensitivity : ℝ
  reverbDecay : ℝ
  reverbDampHigh : ℝ
  reverbDampLow : ℝ
  reverbModDepth : ℝ
  reverbModRate : ℝ
  detuneAmount : ℝ
  delayTime : ℝ
  delayFeedback : ℝ
  vanishRate : ℝ
  degradeAmount : ℝ
  driftAmount : ℝ
  reverbMix : ℝ
  delayMix : ℝ
  masterMix : ℝ
  smoothingCoeff : ℝ

/-- Embedding of `SmoothedParameters::smooth`: every parameter moves
toward its raw target by `smoothVal`, in the index order of the
`targets` array. -/
def smoothAll (s : SmoothedParams) (raw : Fin 18 → ℝ) : SmoothedParams :=
  ⟨smoothVal s.smoothingCoeff s.piezoCorrect (raw 0),
   smoothVal s.smoothingCoeff s.bodyResonance (raw 1),
   smoothVal s.smoothingCoeff s.brightness (raw 2),
   smoothVal s.smoothingCoeff s.bowSensitivity (raw 3),
   smoothVal s.smoothingCoeff s.reverbDecay (raw 4),
   smoothVal s.smoothingCoeff s.reverbDampHigh (raw 5),
   smoothVal s.smoothingCoeff s.reverbDampLow (raw 6),
   smoothVal s.smoothingCoeff s.reverbModDepth (raw 7),
   smoothVal s.smoothingCoeff s.reverbModRate (raw 8),
   smoothVal s.smoothingCoeff s.detuneAmount (raw 9),
   smoothVal s.smoothingCoeff s.delayTime (raw 10),
   smoothVal s.smoothingCoeff s.delayFeedback (raw 11),
   smoothVal s.smoothingCoeff s.vanishRate (raw 12),
   smoothVal s.smoothingCoeff s.degradeAmount (raw 13),
   smoothVal s.smoothingCoeff s.driftAmount (raw 14),
   smoothVal s.smoothingCoeff s.reverbMix (raw 15),
   smoothVal s.smoothingCoeff s.delayMix (raw 16),
   smoothVal s.smoothingCoeff s.masterMix (raw 17),
   s.smoothingCoeff⟩

/-- Conditioner parameters drawn from the smoothed set
(`inputConditioner*.setParameters (...)`). -/
def condParamsOf (sm : SmoothedParams) : CondParams :=
  ⟨sm.piezoCorrect, sm.bodyResonance, sm.brightness⟩

/-- Delay parameters drawn from the smoothed set; the right channel uses
`delayTime * 1.07` and `driftAmount * 1.15`, expressed by the two
factors (`1, 1` on the left). -/
def vdParamsOf (sm : SmoothedParams) (tFac dFac : ℝ) : VDParams :=
  ⟨sm.delayTime * tFac, sm.delayFeedback, sm.vanishRate, sm.degradeAmount,
   sm.driftAmount * dFac⟩

/-- Reverb parameters drawn from the smoothed set. -/
def fdnParamsOf (sm : SmoothedParams) : FDNParams :=
  ⟨sm.reverbDecay, sm.reverbDampHigh, sm.reverbDampLow,
   sm.reverbModDepth, sm.reverbModRate, sm.detuneAmount⟩

/-- Per-channel conditioner stage of `processBlock`. -/
def chanCond (sm : SmoothedParams) (cs : CondState) (dry : ℝ) : CondState × ℝ :=
  condProcess (condParamsOf sm) cs dry

/-- Per-channel envelope-follower stage (side channel). -/
def chanEnv (sm : SmoothedParams) (es : EnvState) (cs : CondState) (dry : ℝ) :
    EnvState × ℝ :=
  envProcess sm.bowSensitivity es (chanCond sm cs dry).2

/-- Per-channel vanishing-delay stage, fed the conditioned sample. -/
def chanVd (gen : ℕ → ℕ → ℝ) (igen : ℕ → ℕ → ℤ → ℤ → ℤ) (sm : SmoothedParams)
    (tFac dFac : ℝ) (vs : VDState) (cs : CondState) (dry : ℝ) : VDState × ℝ :=
  vdProcess gen igen (vdParamsOf sm tFac dFac) vs (chanCond sm cs dry).2

/-- Reverb input: `conditioned + delayOutput * delayMix`. -/
def chanReverbIn (gen : ℕ → ℕ → ℝ) (igen : ℕ → ℕ → ℤ → ℤ → ℤ)
    (sm : SmoothedParams) (tFac dFac : ℝ) (vs : VDState) (cs : CondState)
    (dry : ℝ) : ℝ :=
  (chanCond sm cs dry).2 + (chanVd gen igen sm tFac dFac vs cs dry).2 * sm.delayMix

/-- Per-channel FDN stage. -/
def chanFdn (gen : ℕ → ℕ → ℝ) (igen : ℕ → ℕ → ℤ → ℤ → ℤ) (sm : SmoothedParams)
    (tFac dFac : ℝ) (fs : FDNState) (vs : VDState) (cs : CondState) (dry : ℝ) :
    FDNState × ℝ :=
  fdnProcess (fdnParamsOf sm) fs (chanReverbIn gen igen sm tFac dFac vs cs dry)

/-- The wet mix: `reverbOutput * reverbMix + delayOutput * delayMix`. -/
def chanWet (gen : ℕ → ℕ → ℝ) (igen : ℕ → ℕ → ℤ → ℤ → ℤ) (sm : SmoothedParams)
    (tFac dFac : ℝ) (fs : FDNState) (vs : VDState) (cs : CondState) (dry : ℝ) : ℝ :=
  (chanFdn gen igen sm tFac dFac fs vs cs dry).2 * sm.reverbMix
    + (chanVd gen igen sm tFac dFac vs cs dry).2 * sm.delayMix

/-- DC-blocking of the wet signal; returns the new `(x1, y1)` state, the
second component being the blocked wet sample. -/
def chanDc (gen : ℕ → ℕ → ℝ) (igen : ℕ → ℕ → ℤ → ℤ → ℤ) (sm : SmoothedParams)
    (tFac dFac : ℝ) (fs : FDNState) (vs : VDState) (cs : CondState)
    (dcx dcy : ℝ) (dry : ℝ) : ℝ × ℝ :=
  dcStep dcx dcy (chanWet gen igen sm tFac dFac fs vs cs dry)

/-- The channel's output sample:
`dry * (1 - masterMix) + wet * masterMix`. -/
def chanOut (gen : ℕ → ℕ → ℝ) (igen : ℕ → ℕ → ℤ → ℤ → ℤ) (sm : SmoothedParams)
    (tFac dFac : ℝ) (fs : FDNState) (vs : VDState) (cs : CondState)
    (dcx dcy : ℝ) (dry : ℝ) : ℝ :=
  dry * (1 - sm.masterMix)
    + (chanDc gen igen sm tFac dFac fs vs cs dcx dcy dry).2 * sm.masterMix

/-- The full processor state mutated by one `processBlock` sample. -/
structure PipeState where
  condL : CondState
  condR : CondState
  envL : EnvState
  envR : EnvState
  vdL : VDState
  vdR : VDState
  fdnL : FDNState
  fdnR : FDNState
  sm : SmoothedParams
  dcLx1 : ℝ
  dcLy1 : ℝ
  dcRx1 : ℝ
  dcRy1 : ℝ

/-- One iteration of the per-sample loop of
`AbyssVerbV1AudioProcessor::processBlock`: smooth the 18 raw targets,
run both channels (the right one with the `1.07` / `1.15` stereo
offsets), and return the new state with the two output samples. -/
def pipeStep (gen : ℕ → ℕ → ℝ) (igen : ℕ → ℕ → ℤ → ℤ → ℤ) (raw : Fin 18 → ℝ)
    (st : PipeState) (dryL dryR : ℝ) : PipeState × ℝ × ℝ :=
  let sm := smoothAll st.sm raw
  (⟨(chanCond sm st.condL dryL).1, (chanCond sm st.condR dryR).1,
    (chanEnv sm st.envL st.condL dryL).1, (chanEnv sm st.envR st.condR dryR).1,
    (chanVd gen igen sm 1 1 st.vdL st.condL dryL).1,
    (chanVd gen igen sm 1.07 1.15 st.vdR st.condR dryR).1,
    (chanFdn gen igen sm 1 1 st.fdnL st.vdL st.condL dryL).1,
    (chanFdn gen igen sm 1.07 1.15 st.fdnR st.vdR st.condR dryR).1,
    sm,
    (chanDc gen igen sm 1 1 st.fdnL st.vdL st.condL st.dcLx1 st.dcLy1 dryL).1,
    (chanDc gen igen sm 1 1 st.fdnL st.vdL st.condL st.dcLx1 st.dcLy1 dryL).2,
    (chanDc gen igen sm 1.07 1.15 st.fdnR st.vdR st.condR st.dcRx1 st.dcRy1 dryR).1,
    (chanDc gen igen sm 1.07 1.15 st.fdnR st.vdR st.condR st.dcRx1 st.dcRy1 dryR).2⟩,
   chanOut gen igen sm 1 1 st.fdnL st.vdL st.condL st.dcLx1 st.dcLy1 dryL,
   chanOut gen igen sm 1.07 1.15 st.fdnR st.vdR st.condR st.dcRx1 st.dcRy1 dryR)

--------------------------------------------------------------------------------
-- Zero-buffer evaluation lemmas (used to evaluate the wet path)
--------------------------------------------------------------------------------

theorem getD_replicate_zero : ∀ (n i : ℕ), (List.replicate n (0:ℝ)).getD i 0 = 0
  | 0, _ => rfl
  | _ + 1, 0 => rfl
  | n + 1, i + 1 => getD_replicate_zero n i

theorem tapStep_out_zero (gen : ℕ → ℕ → ℝ) (igen : ℕ → ℕ → ℤ → ℤ → ℤ)
    (seed : ℕ) (sr : ℝ) (n wp : ℕ) (p : VDParams) (spacing : ℝ) (c : ℕ)
    (t : TapState) (hlp : t.lpState = 0) :
    (tapStep gen igen seed sr (List.replicate n 0) wp p spacing c t).2.1 = 0 := by
  simp [tapStep, getD_replicate_zero, hlp, roundHalf_zero]

theorem vdProcess_out_zero (gen : ℕ → ℕ → ℝ) (igen : ℕ → ℕ → ℤ → ℤ → ℤ)
    (p : VDParams) (n : ℕ) (vs : VDState) (x : ℝ)
    (hbuf : vs.buffer = List.replicate n 0)
    (h0 : vs.tap0.lpState = 0) (h1 : vs.tap1.lpState = 0) (h2 : vs.tap2.lpState = 0) :
    (vdProcess gen igen p vs x).2 = 0 := by
  have o0 := tapStep_out_zero gen igen vs.seed vs.sr n vs.writePos p 1 vs.rngCount
    vs.tap0 h0
  have o1 := tapStep_out_zero gen igen vs.seed vs.sr n vs.writePos p 0.618
    (tapStep gen igen vs.seed vs.sr (List.replicate n 0) vs.writePos p 1 vs.rngCount
      vs.tap0).2.2
    vs.tap1 h1
  have o2 := tapStep_out_zero gen igen vs.seed vs.sr n vs.writePos p 0.382
    (tapStep gen igen vs.seed vs.sr (List.replicate n 0) vs.writePos p 0.618
      (tapStep gen igen vs.seed vs.sr (List.replicate n 0) vs.writePos p 1 vs.rngCount
        vs.tap0).2.2
      vs.tap1).2.2
    vs.tap2 h2
  show ((tapStep gen igen vs.seed vs.sr vs.buffer vs.writePos p 1 vs.rngCount vs.tap0).2.1
      + (tapStep gen igen vs.seed vs.sr vs.buffer vs.writePos p 0.618 _ vs.tap1).2.1
      + (tapStep gen igen vs.seed vs.sr vs.buffer vs.writePos p 0.382 _ vs.tap2).2.1) / 3 = 0
  rw [hbuf, o0, o1, o2]
  norm_num

theorem fdnLineOut_zero (p : FDNParams) (s : FDNState) (i : Fin 8)
    (hread : ∀ k : ℕ, (s.lines i).getD k 0 = 0) :
    fdnLineOut s p i = 0 := by
  simp only [fdnLineOut]
  rw [hread, hread]
  ring

theorem fdnProcess_out_zero (p : FDNParams) (s : FDNState) (x : ℝ)
    (hlines : ∀ (i : Fin 8) (k : ℕ), (s.lines i).getD k 0 = 0) :
    (fdnProcess p s x).2 = 0 := by
  show (∑ i : Fin 8, fdnLineOut s p i) * fdnScale = 0
  rw [Finset.sum_congr rfl (fun i _ => fdnLineOut_zero p s i (hlines i)),
    Finset.sum_const_zero, zero_mul]

--------------------------------------------------------------------------------
-- Theorems: masterMix = 0 dry passthrough (C2)
--------------------------------------------------------------------------------

/-- C2 (amended): when the smoothed `masterMix` state is 0 and the raw
`masterMix` target is 0, every output sample of both channels equals
the corresponding dry input sample exactly, regardless of the other 17
parameters and all wet-path module states.  (As literally claimed — for
every block with the raw parameter 0 — the property fails, because
`masterMix` is smoothed: see the counterexample.) -/
theorem C2_master_mix_zero_dry (gen : ℕ → ℕ → ℝ) (igen : ℕ → ℕ → ℤ → ℤ → ℤ)
    (raw : Fin 18 → ℝ) (st : PipeState) (dryL dryR : ℝ)
    (hm : st.sm.masterMix = 0) (hraw : raw 17 = 0) :
    (pipeStep gen igen raw st dryL dryR).2.1 = dryL ∧
    (pipeStep gen igen raw st dryL dryR).2.2 = dryR := by
  have hm' : (smoothAll st.sm raw).masterMix = 0 := by
    show smoothVal st.sm.smoothingCoeff st.sm.masterMix (raw 17) = 0
    rw [smoothVal, hm, hraw]
    ring
  have houtL : (pipeStep gen igen raw st dryL dryR).2.1
      = dryL * (1 - (smoothAll st.sm raw).masterMix)
        + (chanDc gen igen (smoothAll st.sm raw) 1 1 st.fdnL st.vdL st.condL
            st.dcLx1 st.dcLy1 dryL).2 * (smoothAll st.sm raw).masterMix := rfl
  have houtR : (pipeStep gen igen raw st dryL dryR).2.2
      = dryR * (1 - (smoothAll st.sm raw).masterMix)
        + (chanDc gen igen (smoothAll st.sm raw) 1.07 1.15 st.fdnR st.vdR st.condR
            st.dcRx1 st.dcRy1 dryR).2 * (smoothAll st.sm raw).masterMix := rfl
  constructor
  · rw [houtL, hm']; ring
  · rw [houtR, hm']; ring

/-- Conditioner state with arbitrary prepare-time coefficients and all
filter histories zero, for concrete pipeline evaluation. -/
def zeroCond : CondState := ⟨0.9, 1, 0, 0, 0, 0, 0, 0, 0, 0, 0⟩

/-- Envelope state with reset envelope. -/
def zeroEnv : EnvState := ⟨0.9, 0.99, 0⟩

/-- A vanishing-delay state with a 4-sample zero buffer and fresh taps. -/
def zeroVd : VDState :=
  ⟨List.replicate 4 0, 0, 4, 42, 0, ⟨1, 1, 0, 0, 0⟩, ⟨1, 1, 0, 0.33, 0⟩,
   ⟨1, 1, 0, 0.66, 0⟩⟩

/-- An FDN state with 4-sample zero lines and zeroed filters. -/
def zeroFdn : FDNState :=
  ⟨fun _ => List.replicate 4 0, fun _ => 0, fun _ => 0, fun _ => 0, fun _ => 0, 4⟩

/-- Smoothed-parameter state with every value `1/2` and the smoothed
`masterMix` already converged to 0. -/
def smZeroMix : SmoothedParams :=
  ⟨1/2, 1/2, 1/2, 1/2, 1/2, 1/2, 1/2, 1/2, 1/2, 1/2, 1/2, 1/2, 1/2, 1/2, 1/2,
   1/2, 1/2, 0, 1/2⟩

/-- Smoothed-parameter state with every value `1/2` (the processor's
default `masterMix` is `0.5`), smoothing coefficient `1/2`. -/
def smHalf : SmoothedParams :=
  ⟨1/2, 1/2, 1/2, 1/2, 1/2, 1/2, 1/2, 1/2, 1/2, 1/2, 1/2, 1/2, 1/2, 1/2, 1/2,
   1/2, 1/2, 1/2, 1/2⟩

/-- The all-zero raw parameter snapshot (in particular `masterMix = 0`). -/
def rawZero : Fin 18 → ℝ := fun _ => 0

/-- Pipeline state whose smoothed `masterMix` is 0. -/
def pipeStateZeroMix : PipeState :=
  ⟨zeroCond, zeroCond, zeroEnv, zeroEnv, zeroVd, zeroVd, zeroFdn, zeroFdn,
   smZeroMix, 0, 0, 0, 0⟩

/-- Pipeline state whose smoothed `masterMix` is still at the default `1/2`. -/
def pipeStateHalfMix : PipeState :=
  ⟨zeroCond, zeroCond, zeroEnv, zeroEnv, zeroVd, zeroVd, zeroFdn, zeroFdn,
   smHalf, 0, 0, 0, 0⟩

/-- Witness for C2 (amended) at a concrete state with smoothed
`masterMix = 0`, raw `masterMix = 0` and dry inputs `1` and `2`. -/
theorem C2_master_mix_zero_dry_witness :
    (pipeStep genZero igenZero rawZero pipeStateZeroMix 1 2).2.1 = 1 ∧
    (pipeStep genZero igenZero rawZero pipeStateZeroMix 1 2).2.2 = 2 :=
  C2_master_mix_zero_dry genZero igenZero rawZero pipeStateZeroMix 1 2 rfl rfl

/-- C2 counterexample: with the raw `masterMix` parameter 0 but the
smoothed `masterMix` state still at the default `1/2` (as after
`prepareToPlay`), the output does not equal the dry input: with dry
input 1 and an all-zero wet path the output is `3/4`. -/
theorem C2_master_mix_zero_dry_counterexample :
    rawZero 17 = 0 ∧
    (pipeStep genZero igenZero rawZero pipeStateHalfMix 1 1).2.1 ≠ 1 := by
  refine ⟨rfl, ?_⟩
  have hvd : (chanVd genZero igenZero (smoothAll smHalf rawZero) 1 1 zeroVd zeroCond 1).2 = 0 :=
    vdProcess_out_zero genZero igenZero _ 4 zeroVd _ rfl rfl rfl rfl
  have hfdn : (chanFdn genZero igenZero (smoothAll smHalf rawZero) 1 1 zeroFdn zeroVd zeroCond 1).2 = 0 :=
    fdnProcess_out_zero _ zeroFdn _ (fun i k => getD_replicate_zero 4 k)
  have hwet : chanWet genZero igenZero (smoothAll smHalf rawZero) 1 1 zeroFdn zeroVd zeroCond 1 = 0 := by
    rw [chanWet, hfdn, hvd]
    ring
  have hdc : (chanDc genZero igenZero (smoothAll smHalf rawZero) 1 1 zeroFdn zeroVd zeroCond 0 0 1).2 = 0 := by
    show (dcStep 0 0 (chanWet genZero igenZero (smoothAll smHalf rawZero) 1 1 zeroFdn zeroVd zeroCond 1)).2 = 0
    rw [hwet]
    show (0 : ℝ) - 0 + 0.995 * 0 = 0
    ring
  have hout : (pipeStep genZero igenZero rawZero pipeStateHalfMix 1 1).2.1
      = 1 * (1 - (smoothAll smHalf rawZero).masterMix)
        + (chanDc genZero igenZero (smoothAll smHalf rawZero) 1 1 zeroFdn zeroVd zeroCond
            0 0 1).2 * (smoothAll smHalf rawZero).masterMix := rfl
  have hmm : (smoothAll smHalf rawZero).masterMix = 1/4 := by
    show smoothVal smHalf.smoothingCoeff smHalf.masterMix (rawZero 17) = 1/4
    rw [smoothVal]
    show (1:ℝ)/2 + (0 - 1/2) * (1 - 1/2) = 1/4
    norm_num
  rw [hout, hdc, hmm]
  norm_num

--------------------------------------------------------------------------------
-- Theorems: parameter smoothing (C3)
--------------------------------------------------------------------------------

/-- C3: the per-parameter smoother update is
`smoothed += (target - smoothed) * (1 - coeff)`; iterated `n` times with a
constant target it equals `target - (target - initial) * coeff^n`, and, the
coefficient lying in `[0, 1]` (it is `exp (-1 / (sampleRate * 0.01))` in
`SmoothedParameters::reset`, hence in `(0, 1)` for positive sample rates),
it never exceeds the target when approaching from below. -/
theorem C3_smoothing_closed_form (coeff target v : ℝ) (n : ℕ) :
    smoothRun coeff target n v = target - (target - v) * coeff ^ n ∧
    (0 ≤ coeff → coeff ≤ 1 → v ≤ target → smoothRun coeff target n v ≤ target) := by
  have closed : ∀ (n : ℕ) (v : ℝ),
      smoothRun coeff target n v = target - (target - v) * coeff ^ n := by
    intro n
    induction n with
    | zero => intro v; simp [smoothRun]
    | succ n ih =>
        intro v
        rw [smoothRun, ih, smoothVal, pow_succ]
        ring
  refine ⟨closed n v, fun hc0 hc1 hv => ?_⟩
  rw [closed n v]
  have h1 : 0 ≤ (target - v) * coeff ^ n :=
    mul_nonneg (by linarith) (pow_nonneg hc0 n)
  linarith

/-- Witness for C3 at `coeff = 1/2`, `target = 1`, `initial = 0`, `n = 2`. -/
theorem C3_smoothing_closed_form_witness :
    smoothRun (1/2) 1 2 0 = 1 - (1 - 0) * (1/2) ^ 2 ∧ smoothRun (1/2) 1 2 0 ≤ 1 :=
  ⟨(C3_smoothing_closed_form (1/2) 1 0 2).1,
   (C3_smoothing_closed_form (1/2) 1 0 2).2 (by norm_num) (by norm_num) (by norm_num)⟩

--------------------------------------------------------------------------------
-- Theorems: DC blocker (C8)
--------------------------------------------------------------------------------

/-- C8: each channel's DC blocker is
`y[n] = x[n] - x[n-1] + 0.995 * y[n-1]` with state reset to zero; on a
constant input `c` from the reset state the output at sample `n` equals
`c * 0.995^n`, which converges to zero, so no nonzero pure-DC steady
state survives. -/
theorem C8_dc_blocker_constant_input (c : ℝ) :
    (∀ n, dcOutSeq c n = c * 0.995 ^ n) ∧
    Filter.Tendsto (dcOutSeq c) Filter.atTop (nhds 0) := by
  have hx1 : ∀ n, (dcIter c (n + 1)).1 = c := by
    intro n; simp [dcIter, dcStep]
  have closed : ∀ n, dcOutSeq c n = c * 0.995 ^ n := by
    intro n
    induction n with
    | zero => simp [dcOutSeq, dcIter, dcStep]
    | succ n ih =>
        have : dcOutSeq c (n + 1)
            = c - (dcIter c (n + 1)).1 + 0.995 * (dcIter c (n + 1)).2 := rfl
        rw [this, hx1 n]
        have h2 : (dcIter c (n + 1)).2 = c * 0.995 ^ n := ih
        rw [h2, pow_succ]
        ring
  refine ⟨closed, ?_⟩
  have heq : dcOutSeq c = fun n => c * 0.995 ^ n := funext closed
  rw [heq]
  have h := (tendsto_pow_atTop_nhds_zero_of_lt_one
    (by norm_num : (0:ℝ) ≤ 0.995) (by norm_num : (0.995:ℝ) < 1)).const_mul c
  simpa using h

--------------------------------------------------------------------------------
-- Theorems: input conditioner clamping (C9)
--------------------------------------------------------------------------------

/-- C9: for every input sample, filter state and parameter setting the
conditioner's returned value lies in `[-1, 1]`, and the body-resonance
biquad output that gets blended into the signal is clamped to
`[-10, 10]`. -/
theorem C9_conditioner_clamped (p : CondParams) (s : CondState) (input : ℝ) :
    (∀ corrected, -10 ≤ condBodyClamped s corrected ∧ condBodyClamped s corrected ≤ 10) ∧
    (-1 ≤ (condProcess p s input).2 ∧ (condProcess p s input).2 ≤ 1) := by
  constructor
  · intro corrected
    exact jlimit_mem (-10) 10 _ (by norm_num)
  · exact jlimit_mem (-1) 1 _ (by norm_num)

--------------------------------------------------------------------------------
-- Theorems: envelope follower invariant (C10)
--------------------------------------------------------------------------------

theorem envStep_bounds (ac rc : ℝ) (hac0 : 0 ≤ ac) (hac1 : ac ≤ 1)
    (hrc0 : 0 ≤ rc) (hrc1 : rc ≤ 1) (env x : ℝ) (henv : 0 ≤ env) :
    0 ≤ envStep ac rc env x ∧ envStep ac rc env x ≤ max |x| env := by
  have hx : 0 ≤ |x| := abs_nonneg x
  unfold envStep
  split_ifs with h
  · constructor
    · nlinarith
    · have hle : |x| + (env - |x|) * ac ≤ |x| := by nlinarith
      exact le_trans hle (le_max_left _ _)
  · push_neg at h
    constructor
    · nlinarith
    · have hle : |x| + (env - |x|) * rc ≤ env := by nlinarith
      exact le_trans hle (le_max_right _ _)

theorem maxAbs_nonneg : ∀ xs : List ℝ, 0 ≤ maxAbs xs
  | [] => le_refl 0
  | x :: xs => le_trans (maxAbs_nonneg xs) (le_max_right |x| _)

theorem envRun_from_bounds (ac rc : ℝ) (hac0 : 0 ≤ ac) (hac1 : ac ≤ 1)
    (hrc0 : 0 ≤ rc) (hrc1 : rc ≤ 1) :
    ∀ (xs : List ℝ) (env : ℝ), 0 ≤ env →
      0 ≤ xs.foldl (fun e x => envStep ac rc e x) env ∧
      xs.foldl (fun e x => envStep ac rc e x) env ≤ max env (maxAbs xs) := by
  intro xs
  induction xs with
  | nil =>
      intro env henv
      exact ⟨henv, le_max_left _ _⟩
  | cons x xs ih =>
      intro env henv
      have hstep := envStep_bounds ac rc hac0 hac1 hrc0 hrc1 env x henv
      have hrec := ih (envStep ac rc env x) hstep.1
      refine ⟨hrec.1, ?_⟩
      have h1 : List.foldl (fun e x => envStep ac rc e x) (envStep ac rc env x) xs
          ≤ max (max |x| env) (maxAbs xs) :=
        le_trans hrec.2 (max_le_max_right _ hstep.2)
      have h2 : max (max |x| env) (maxAbs xs) ≤ max env (maxAbs (x :: xs)) := by
        have hx1 : |x| ≤ max env (max |x| (maxAbs xs)) :=
          le_trans (le_max_left |x| (maxAbs xs)) (le_max_right env _)
        have hx2 : env ≤ max env (max |x| (maxAbs xs)) := le_max_left env _
        have hx3 : maxAbs xs ≤ max env (max |x| (maxAbs xs)) :=
          le_trans (le_max_right |x| (maxAbs xs)) (le_max_right env _)
        exact max_le (max_le hx1 hx2) hx3
      exact le_trans h1 h2

/-- C10: starting from the reset state `envelope = 0`, after any finite
input sequence the envelope is nonnegative and bounded above by the
maximum absolute input seen so far (each update is a convex combination
of `|input|` and the previous envelope, the coefficients being
`exp (-1/(sr * 0.001))` and `exp (-1/(sr * 0.1))`, both in `[0, 1]`);
hence the returned value `envelope * (0.5 + sensitivity * 0.5)` is
nonnegative for `sensitivity ∈ [0, 1]`. -/
theorem C10_envelope_bounded (ac rc sens : ℝ) (xs : List ℝ)
    (hac0 : 0 ≤ ac) (hac1 : ac ≤ 1) (hrc0 : 0 ≤ rc) (hrc1 : rc ≤ 1)
    (hs : 0 ≤ sens) :
    0 ≤ envRun ac rc xs ∧ envRun ac rc xs ≤ maxAbs xs ∧
    0 ≤ envRun ac rc xs * (0.5 + sens * 0.5) := by
  have h := envRun_from_bounds ac rc hac0 hac1 hrc0 hrc1 xs 0 (le_refl 0)
  have hmax : max (0:ℝ) (maxAbs xs) = maxAbs xs := max_eq_right (maxAbs_nonneg xs)
  have h2 : envRun ac rc xs ≤ maxAbs xs := by
    have := h.2
    rw [hmax] at this
    exact this
  refine ⟨h.1, h2, ?_⟩
  have hc : (0:ℝ) ≤ 0.5 + sens * 0.5 := by nlinarith
  exact mul_nonneg h.1 hc

/-- Witness for C10 at `ac = rc = 1/2`, `sens = 1`, inputs `[1, -2]`. -/
theorem C10_envelope_bounded_witness :
    0 ≤ envRun (1/2) (1/2) [1, -2] ∧ envRun (1/2) (1/2) [1, -2] ≤ maxAbs [1, -2] ∧
    0 ≤ envRun (1/2) (1/2) [1, -2] * (0.5 + 1 * 0.5) :=
  C10_envelope_bounded (1/2) (1/2) 1 [1, -2]
    (by norm_num) (by norm_num) (by norm_num) (by norm_num) (by norm_num)

end

end AbyssVerb
